import Mathlib

/-!
Shallow embedding of the download orchestration engine of
`scripts/download_manager.py` (URL extraction and classification, the
provider-routing dispatcher, the retry policy, the download-history ledger,
the Google-Docs export table and the DRM authentication and resolution
protocol), together with theorems settling the specification claims.

Machine integers are modelled as `Nat`/`Int` with explicit reduction
modulo powers of two where the algorithm requires it.
-/

/-! ### MD5 (RFC 1321), modelling Python `hashlib.md5`

The DRM handshake in `DownloadManager._drm_auth` hashes an underscore-joined
parameter string with MD5 and sends the hex digest.  `hashlib.md5` is a
standard-library collaborator; it is embedded here as the standard MD5
algorithm over byte lists (`Nat` values < 256), words being `Nat` values
reduced modulo `2^32`. -/

/-- Reduce a natural number modulo `2^32` (32-bit word arithmetic). -/
def u32 (n : Nat) : Nat := n % 4294967296

/-- Left-rotate a 32-bit word (`x < 2^32` expected) by `c` bits. -/
def rotl32 (x c : Nat) : Nat := u32 ((x <<< c) ||| (x >>> (32 - c)))

/-- Bitwise complement of a 32-bit word. -/
def not32 (x : Nat) : Nat := x ^^^ 4294967295

/-- The 64 MD5 round constants `K[i] = floor(abs(sin(i+1)) * 2^32)`. -/
def md5K : List Nat := [
  3614090360, 3905402710, 606105819, 3250441966, 4118548399, 1200080426, 2821735955, 4249261313,
  1770035416, 2336552879, 4294925233, 2304563134, 1804603682, 4254626195, 2792965006, 1236535329,
  4129170786, 3225465664, 643717713, 3921069994, 3593408605, 38016083, 3634488961, 3889429448,
  568446438, 3275163606, 4107603335, 1163531501, 2850285829, 4243563512, 1735328473, 2368359562,
  4294588738, 2272392833, 1839030562, 4259657740, 2763975236, 1272893353, 4139469664, 3200236656,
  681279174, 3936430074, 3572445317, 76029189, 3654602809, 3873151461, 530742520, 3299628645,
  4096336452, 1126891415, 2878612391, 4237533241, 1700485571, 2399980690, 4293915773, 2240044497,
  1873313359, 4264355552, 2734768916, 1309151649, 4149444226, 3174756917, 718787259, 3951481745]

/-- The 64 MD5 per-round left-rotation amounts. -/
def md5S : List Nat := [
  7, 12, 17, 22, 7, 12, 17, 22, 7, 12, 17, 22, 7, 12, 17, 22,
  5, 9, 14, 20, 5, 9, 14, 20, 5, 9, 14, 20, 5, 9, 14, 20,
  4, 11, 16, 23, 4, 11, 16, 23, 4, 11, 16, 23, 4, 11, 16, 23,
  6, 10, 15, 21, 6, 10, 15, 21, 6, 10, 15, 21, 6, 10, 15, 21]

/-- Little-endian byte decomposition of `n` into `count` bytes. -/
def natToLEBytes : Nat → Nat → List Nat
  | _, 0 => []
  | n, count + 1 => (n % 256) :: natToLEBytes (n / 256) count

/-- Convert a list of bytes into little-endian 32-bit words, 4 bytes each. -/
def leWords : List Nat → List Nat
  | b0 :: b1 :: b2 :: b3 :: rest =>
      (b0 + 256 * b1 + 65536 * b2 + 16777216 * b3) :: leWords rest
  | _ => []

/-- MD5 padding: append `0x80`, zero bytes to 56 mod 64, then the bit length
as 8 little-endian bytes. -/
def md5Pad (msg : List Nat) : List Nat :=
  let len := msg.length
  let zeros := (64 + 56 - ((len + 1) % 64)) % 64
  msg ++ [128] ++ List.replicate zeros 0 ++ natToLEBytes ((len * 8) % 18446744073709551616) 8

/-- One MD5 round step `i` (0-based) on state `(A, B, C, D)` with message
words `M` (16 little-endian words of the current chunk). -/
def md5Step (M : List Nat) (st : Nat × Nat × Nat × Nat) (i : Nat) : Nat × Nat × Nat × Nat :=
  let (A, B, C, D) := st
  let fg : Nat × Nat :=
    if i < 16 then ((B &&& C) ||| (not32 B &&& D), i)
    else if i < 32 then ((D &&& B) ||| (not32 D &&& C), (5 * i + 1) % 16)
    else if i < 48 then (B ^^^ C ^^^ D, (3 * i + 5) % 16)
    else (C ^^^ (B ||| not32 D), (7 * i) % 16)
  let f := u32 (fg.1 + A + md5K.getD i 0 + M.getD fg.2 0)
  (D, u32 (B + rotl32 f (md5S.getD i 0)), B, C)

/-- Process one 64-byte chunk, updating the MD5 state. -/
def md5Chunk (st : Nat × Nat × Nat × Nat) (chunk : List Nat) : Nat × Nat × Nat × Nat :=
  let M := leWords chunk
  let (a0, b0, c0, d0) := st
  let r := (List.range 64).foldl (md5Step M) (a0, b0, c0, d0)
  (u32 (a0 + r.1), u32 (b0 + r.2.1), u32 (c0 + r.2.2.1), u32 (d0 + r.2.2.2))

/-- Fold the chunk function over the padded message, 64 bytes at a time.
Structural fuel (one unit per chunk) keeps the definition executable by the
kernel; `md5Bytes` supplies enough fuel for the whole message. -/
def md5Rounds : Nat → (Nat × Nat × Nat × Nat) → List Nat → Nat × Nat × Nat × Nat
  | 0, st, _ => st
  | _, st, [] => st
  | fuel + 1, st, bytes => md5Rounds fuel (md5Chunk st (bytes.take 64)) (bytes.drop 64)

/-- MD5 digest of a byte list: 16 output bytes. -/
def md5Bytes (msg : List Nat) : List Nat :=
  let padded := md5Pad msg
  let r := md5Rounds (padded.length / 64 + 1)
    (1732584193, 4023233417, 2562383102, 271733878) padded
  natToLEBytes r.1 4 ++ natToLEBytes r.2.1 4 ++ natToLEBytes r.2.2.1 4 ++ natToLEBytes r.2.2.2 4

/-- Hex digit character for `n < 16` (lowercase, as Python `hexdigest`). -/
def hexDigit (n : Nat) : Char := if n < 10 then Char.ofNat (48 + n) else Char.ofNat (87 + n)

/-- Two-character lowercase hex rendering of one byte. -/
def byteToHex (b : Nat) : List Char := [hexDigit (b / 16), hexDigit (b % 16)]

/-- UTF-8 encoding of a single character as a byte list (Python `str.encode`). -/
def utf8EncodeChar (c : Char) : List Nat :=
  let n := c.toNat
  if n < 128 then [n]
  else if n < 2048 then [192 ||| (n >>> 6), 128 ||| (n &&& 63)]
  else if n < 65536 then
    [224 ||| (n >>> 12), 128 ||| ((n >>> 6) &&& 63), 128 ||| (n &&& 63)]
  else
    [240 ||| (n >>> 18), 128 ||| ((n >>> 12) &&& 63),
     128 ||| ((n >>> 6) &&& 63), 128 ||| (n &&& 63)]

/-- UTF-8 byte encoding of a string. -/
def utf8Bytes (s : String) : List Nat := (s.toList.map utf8EncodeChar).flatten

/-- Lowercase hex MD5 digest of a string, as Python
`md5(s.encode()).hexdigest()`. -/
def md5Hex (s : String) : String := String.mk ((md5Bytes (utf8Bytes s)).map byteToHex).flatten

/-! ### URL extraction — `DownloadManager.extract_urls_from_text`

The Python regex is
`https?://(?:[a-zA-Z]|[0-9]|[$-_@.&+]|[!*\\(\\),]|(?:%[0-9a-fA-F][0-9a-fA-F]))+`
scanned with `finditer` (leftmost, non-overlapping, greedy).  Each
single-character alternative is reproduced below; since `%` (0x25) lies in
the range `$`–`_` of the third alternative and hex digits are alphanumeric,
the percent-escape alternative adds no strings beyond runs of the combined
character set, so a greedy match is exactly a maximal run of `isUrlChar`
characters after the scheme. -/

/-- Character class of the URL-token regex body: `[a-zA-Z]`, `[0-9]`,
`[$-_@.&+]` (a range from 0x24 to 0x5F plus `@ . & +`, all inside the
range), `[!*\(\),]` and `%` (the leading byte of a percent escape). -/
def isUrlChar (c : Char) : Bool :=
  let n := c.toNat
  decide ((97 ≤ n ∧ n ≤ 122) ∨ (65 ≤ n ∧ n ≤ 90) ∨ (48 ≤ n ∧ n ≤ 57) ∨
    (36 ≤ n ∧ n ≤ 95) ∨ n = 64 ∨ n = 46 ∨ n = 38 ∨ n = 43 ∨
    n = 33 ∨ n = 42 ∨ n = 92 ∨ n = 40 ∨ n = 41 ∨ n = 44 ∨ n = 37)

/-- Does `cs` start with the literal character list `pat`? -/
def startsWithChars : List Char → List Char → Bool
  | [], _ => true
  | _ :: _, [] => false
  | p :: ps, c :: cs => p == c && startsWithChars ps cs

/-- Try to match the URL-token regex at the head of `cs`: the literal scheme
(`https://` preferred over `http://`, as `https?` is greedy) followed by a
non-empty maximal run of `isUrlChar` characters.  Returns the token and the
rest of the input after it. -/
def tryMatch (cs : List Char) : Option (List Char × List Char) :=
  if startsWithChars "https://".toList cs then
    let rest := cs.drop 8
    let run := rest.takeWhile isUrlChar
    if run.isEmpty then none else some ("https://".toList ++ run, rest.dropWhile isUrlChar)
  else if startsWithChars "http://".toList cs then
    let rest := cs.drop 7
    let run := rest.takeWhile isUrlChar
    if run.isEmpty then none else some ("http://".toList ++ run, rest.dropWhile isUrlChar)
  else none

/-- `finditer` scan: at each position try to match; on a match continue after
it, otherwise advance one character.  Fuel (one unit per consumed character)
keeps the recursion structural; `findUrlTokens` supplies `cs.length`. -/
def scanAux : Nat → List Char → List (List Char)
  | 0, _ => []
  | _, [] => []
  | fuel + 1, c :: rest =>
    match tryMatch (c :: rest) with
    | some (tok, rem) => tok :: scanAux fuel rem
    | none => scanAux fuel rest

/-- All raw URL tokens of a character list, in match order. -/
def findUrlTokens (cs : List Char) : List (List Char) := scanAux cs.length cs

/-- Trailing-punctuation class of `re.sub(r'[.,;:!?\s]+$', '', url)`:
`. , ; : ! ?` and ASCII whitespace. -/
def isPunctWs (c : Char) : Bool :=
  decide (c = '.' ∨ c = ',' ∨ c = ';' ∨ c = ':' ∨ c = '!' ∨ c = '?' ∨
    c = ' ' ∨ c = '\t' ∨ c = '\n' ∨ c = '\r' ∨ c.toNat = 11 ∨ c.toNat = 12)

/-- Drop the maximal trailing run of characters satisfying `p`. -/
def dropTrailing (p : Char → Bool) (l : List Char) : List Char :=
  (l.reverse.dropWhile p).reverse

/-- `re.sub(r'[.,;:!?\s]+$', '', url)`. -/
def stripPunct (l : List Char) : List Char := dropTrailing isPunctWs l

/-- Python `url.rstrip(')')`: drop every trailing `)`. -/
def rstripParen (l : List Char) : List Char := dropTrailing (fun c => c == ')') l

/-- Occurrences of `ch` in `l` (Python `str.count`). -/
def countChar (ch : Char) (l : List Char) : Nat := l.count ch

/-- Per-token cleanup of `extract_urls_from_text`: strip trailing
punctuation, then if the token holds fewer `(` than `)`, `rstrip(')')`. -/
def cleanupToken (l : List Char) : List Char :=
  let u := stripPunct l
  if countChar '(' u < countChar ')' u then rstripParen u else u

/-- The cleaned URL token sequence of a text, before deduplication. -/
def cleanedTokens (t : String) : List String :=
  (findUrlTokens t.toList).map (fun tok => String.mk (cleanupToken tok))

/-- Deduplication loop of `extract_urls_from_text`: a `seen` set (modelled
as the list of already-kept strings) filters later duplicates. -/
def dedupGo (seen : List String) : List String → List String
  | [] => []
  | x :: xs => if x ∈ seen then dedupGo seen xs else x :: dedupGo (x :: seen) xs

/-- `DownloadManager.extract_urls_from_text`. -/
def extract_urls_from_text (t : String) : List String := dedupGo [] (cleanedTokens t)

/-- Specification-side deduplication, following the spec's words: each
distinct URL is kept at the position of its first occurrence (the head is
kept and all its later duplicates are filtered out before recursing).
Structural fuel keeps it executable; `dedupFirstSpec` supplies the length. -/
def dedupFirstSpecGo : Nat → List String → List String
  | 0, _ => []
  | _, [] => []
  | fuel + 1, x :: xs => x :: dedupFirstSpecGo fuel (xs.filter (fun y => decide (y ≠ x)))

/-- Keep the first occurrence of every distinct string, in order. -/
def dedupFirstSpec (l : List String) : List String := dedupFirstSpecGo l.length l

/-! ### URL classification — `DownloadManager.detect_url_type`

Each branch of the Python function is a substring test or an anchored
regex `search`; every pattern starts with a literal, so `search` succeeds
exactly when some suffix of the input matches the pattern at its head.
The helpers below decide that suffix-existence directly. -/

/-- Does some suffix of the input satisfy `p`?  (Models `re.search`: the
pattern matches at some start position.) -/
def searchAt (p : List Char → Bool) : List Char → Bool
  | [] => p []
  | c :: rest => p (c :: rest) || searchAt p rest

/-- Does `cs` contain `pat` as a contiguous substring (Python `in`)? -/
def containsSub (pat : List Char) (cs : List Char) : Bool :=
  searchAt (startsWithChars pat) cs

/-- Decimal digit. -/
def isDigitCh (c : Char) : Bool := decide (48 ≤ c.toNat ∧ c.toNat ≤ 57)

/-- Character class `[a-f0-9\-]` of the embed-guid regex. -/
def isHexDash (c : Char) : Bool :=
  decide ((97 ≤ c.toNat ∧ c.toNat ≤ 102) ∨ (48 ≤ c.toNat ∧ c.toNat ≤ 57) ∨ c = '-')

/-- Character class `[a-zA-Z0-9_-]` of the Drive/Docs id captures. -/
def isWordDash (c : Char) : Bool :=
  let n := c.toNat
  decide ((97 ≤ n ∧ n ≤ 122) ∨ (65 ≤ n ∧ n ≤ 90) ∨ (48 ≤ n ∧ n ≤ 57) ∨ c = '_' ∨ c = '-')

/-- Match of `/embed/(\d+)/([a-f0-9\-]+)` at the head of `cs`: the literal
`/embed/`, a non-empty digit run, `/`, then at least one `[a-f0-9-]`. -/
def embedMatchAt (cs : List Char) : Bool :=
  startsWithChars "/embed/".toList cs &&
  (let r := cs.drop 7
   !(r.takeWhile isDigitCh).isEmpty &&
   (match r.dropWhile isDigitCh with
    | '/' :: r2 => !(r2.takeWhile isHexDash).isEmpty
    | _ => false))

/-- Match of a literal followed by at least one `[a-zA-Z0-9_-]` at the head
of `cs` (shape of the Drive file/folder and Docs id patterns). -/
def litThenWordAt (lit : List Char) (cs : List Char) : Bool :=
  startsWithChars lit cs && !((cs.drop lit.length).takeWhile isWordDash).isEmpty

/-- Match of the Docs pattern
`https://docs\.google\.com/(document|spreadsheets|presentation)/d/([a-zA-Z0-9_-]+)`
at the head of `cs`. -/
def googleDocsAt (cs : List Char) : Bool :=
  startsWithChars "https://docs.google.com/".toList cs &&
  (let r := cs.drop 24
   (startsWithChars "document".toList r && litThenWordAt "/d/".toList (r.drop 8)) ||
   (startsWithChars "spreadsheets".toList r && litThenWordAt "/d/".toList (r.drop 12)) ||
   (startsWithChars "presentation".toList r && litThenWordAt "/d/".toList (r.drop 12)))

/-- Known media/document extensions of the `generic_media` pattern. -/
def extListDM : List (List Char) :=
  ["mp4", "mp3", "pdf", "zip", "mov", "avi", "mkv", "doc", "docx", "xls", "xlsx"].map
    String.toList

/-- Is some extension of `extListDM` at the head of `cs`? -/
def extAt (cs : List Char) : Bool := extListDM.any (fun e => startsWithChars e cs)

/-- Scan for `.<ext>` (the `\.(ext|...)` tail of the generic pattern) with
no newline before it — regex `.` does not cross `\n`. -/
def dotExtSomewhere : List Char → Bool
  | [] => false
  | c :: rest => if c == '\n' then false else ((c == '.' && extAt rest) || dotExtSomewhere rest)

/-- Match of `https?://.*?\.(mp4|...)` (IGNORECASE) at the head of an
already-lowercased input. -/
def genericAt (cs : List Char) : Bool :=
  (startsWithChars "https://".toList cs && dotExtSomewhere (cs.drop 8)) ||
  (startsWithChars "http://".toList cs && dotExtSomewhere (cs.drop 7))

/-- Provider tags of `detect_url_type`. -/
inductive UrlType where
  | bunnycdn
  | googledrive_file
  | googledrive_folder
  | googledocs
  | dropbox
  | generic_media
  | unknown
deriving DecidableEq, Repr

/-- The Python string name of a provider tag (used in error messages). -/
def urlTypeName : UrlType → String
  | .bunnycdn => "bunnycdn"
  | .googledrive_file => "googledrive_file"
  | .googledrive_folder => "googledrive_folder"
  | .googledocs => "googledocs"
  | .dropbox => "dropbox"
  | .generic_media => "generic_media"
  | .unknown => "unknown"

/-- `DownloadManager.detect_url_type`: map a URL to a provider tag and a
validity flag.  Branches in source order; for `bunnycdn` the guid regex
`/embed/(\d+)/([a-f0-9\-]+)` decides validity (a successful match always has
a non-empty second group, so Python's `match.group(2)` truthiness test
coincides with the match test). -/
def detect_url_type (url : String) : UrlType × Bool :=
  let cs := url.toList
  if containsSub "iframe.mediadelivery.net/embed/".toList cs then
    if searchAt embedMatchAt cs then (.bunnycdn, true) else (.bunnycdn, false)
  else if searchAt (litThenWordAt "https://drive.google.com/file/d/".toList) cs then
    (.googledrive_file, true)
  else if searchAt (litThenWordAt "https://drive.google.com/drive/folders/".toList) cs then
    (.googledrive_folder, true)
  else if searchAt googleDocsAt cs then (.googledocs, true)
  else if containsSub "dropbox".toList (cs.map Char.toLower) then (.dropbox, true)
  else if searchAt genericAt (cs.map Char.toLower) then (.generic_media, true)
  else (.unknown, false)

/-! ### History ledger — `is_downloaded` / `mark_downloaded`

The Python history is a `dict` keyed by URL (unique keys, insertion order,
assignment replaces in place); it is modelled as an association list with
an update-in-place-or-append upsert.  `save_history` (whole-file JSON
persistence) is I/O outside the shallow embedding; the ledger state itself
is threaded explicitly. -/

/-- One history record: `{filename, status, timestamp, folder}`. -/
structure HistoryRecord where
  filename : String
  status : String
  timestamp : String
  folder : Option String
deriving DecidableEq, Repr

/-- The ledger: URL-keyed association list (Python `dict`). -/
abbrev History := List (String × HistoryRecord)

/-- Python `dict` lookup: the (unique) entry with the given key. -/
def lookupH : History → String → Option HistoryRecord
  | [], _ => none
  | (k, v) :: rest, url => if k = url then some v else lookupH rest url

/-- Python `dict` assignment `self.history[url] = rec`: replace the entry in
place if the key exists, else append. -/
def upsertH : History → String → HistoryRecord → History
  | [], url, r => [(url, r)]
  | (k, v) :: rest, url, r =>
    if k = url then (k, r) :: rest else (k, v) :: upsertH rest url r

/-- `DownloadManager.mark_downloaded` (timestamp passed in for
`datetime.now().isoformat()`). -/
def mark_downloaded (h : History) (url filename status : String)
    (folder : Option String) (now : String) : History :=
  upsertH h url ⟨filename, status, now, folder⟩

/-- `DownloadManager.is_downloaded`: true only if the skip-existing policy
is enabled AND a record exists with status `completed`. -/
def is_downloaded (skipExisting : Bool) (h : History) (url : String) : Bool :=
  skipExisting &&
    (match lookupH h url with
     | some r => r.status == "completed"
     | none => false)

/-- Number of ledger entries carrying a given URL key. -/
def countKey (url : String) (h : History) : Nat :=
  (h.filter (fun e => e.1 == url)).length

/-- Key list of a ledger. -/
def keysH (h : History) : List String := h.map (fun e => e.1)

/-! ### Retry executor — `DownloadManager.download_with_retry`

The wrapped operation is modelled as a function from the 0-based attempt
index to its outcome.  `retry_attempts` and `retry_delay` are Python ints
(`Int`); `range(n)` of a non-positive `n` is empty, hence `Int.toNat`.
The result distinguishes success, a re-raised operation error, and the
`TypeError` produced by `raise last_error` when `last_error` is still
`None` (zero iterations).  The second and third components collect the
sleep durations (in order) and the attempted indices. -/

/-- Outcome of `download_with_retry`. -/
inductive RetryResult (ε α : Type) where
  | success (v : α)
  | raised (e : ε)
  | typeError
deriving DecidableEq, Repr

/-- The retry loop over the remaining attempt indices, carrying
`last_error`.  Returns (outcome, sleep durations, invoked attempt indices).
A failed attempt `a` sleeps `retry_delay * (a + 1)` only when
`a < retry_attempts - 1`, as in the source. -/
def retryRun (op : Nat → Except ε α) (ra delay : Int) :
    List Nat → Option ε → RetryResult ε α × List Int × List Nat
  | [], last =>
    (match last with
     | some e => .raised e
     | none => .typeError, [], [])
  | a :: rest, _ =>
    match op a with
    | .ok v => (.success v, [], [a])
    | .error e =>
      let r := retryRun op ra delay rest (some e)
      let sl : List Int := if (a : Int) < ra - 1 then [delay * ((a : Int) + 1)] else []
      (r.1, sl ++ r.2.1, a :: r.2.2)

/-- `DownloadManager.download_with_retry` with `retry_attempts = ra` and
`retry_delay = delay`. -/
def download_with_retry (op : Nat → Except ε α) (ra delay : Int) :
    RetryResult ε α × List Int × List Nat :=
  retryRun op ra delay (List.range ra.toNat) none

/-! ### DRM pieces — `_drm_auth` and `_get_best_resolution` -/

/-- One HTTP request of the DRM handshake: URL and query parameters. -/
structure DrmRequest where
  url : String
  params : List (String × String)
deriving DecidableEq, Repr

/-- The `ping` request built inside `_drm_auth`: its `hash` parameter is the
MD5 hex digest of `f"{secret}_{context_id}_{time_val}_{paused}_{res}"`. -/
def drmPingRequest (server_id context_id secret : String)
    (timeVal : Nat) (paused res : String) : DrmRequest :=
  { url := "https://video-" ++ server_id ++ ".mediadelivery.net/.drm/" ++ context_id ++ "/ping"
    params := [
      ("hash", md5Hex (secret ++ "_" ++ context_id ++ "_" ++ toString timeVal ++ "_" ++
        paused ++ "_" ++ res)),
      ("time", toString timeVal), ("paused", paused), ("chosen_res", res)] }

/-- The `activate` request of `_drm_auth`. -/
def drmActivateRequest (server_id context_id : String) : DrmRequest :=
  { url := "https://video-" ++ server_id ++ ".mediadelivery.net/.drm/" ++ context_id ++ "/activate"
    params := [] }

/-- `DownloadManager._drm_auth` as its request trace: `ping(0, "true", "0")`
followed by `activate`. -/
def drm_auth (server_id context_id secret : String) : List DrmRequest :=
  [drmPingRequest server_id context_id secret 0 "true" "0",
   drmActivateRequest server_id context_id]

/-- Python `str.split(sep)` for a one-character separator. -/
def splitOnCh (sep : Char) : List Char → List (List Char)
  | [] => [[]]
  | c :: rest =>
    let r := splitOnCh sep rest
    if c == sep then [] :: r
    else
      match r with
      | [] => [[c]]
      | h2 :: t2 => (c :: h2) :: t2

/-- Python `int` on a decimal-digit string (the only inputs produced by the
`(\d+x\d+)` findall). -/
def digitsToNat (l : List Char) : Nat :=
  l.foldl (fun acc c => acc * 10 + (c.toNat - 48)) 0

/-- Sort key of `_get_best_resolution`: `int(x.split('x')[1])`, the height
of a `<width>x<height>` token. -/
def heightOf (s : String) : Nat := digitsToNat ((splitOnCh 'x' s.toList).getD 1 [])

/-- Stable descending insertion by height (Python `sorted(key=..., reverse=True)`
is stable; an element is inserted before the first element of no greater
height, so earlier-listed tokens stay first among equals). -/
def insertDesc (x : String) : List String → List String
  | [] => [x]
  | y :: ys => if heightOf y ≤ heightOf x then x :: y :: ys else y :: insertDesc x ys

/-- Stable descending sort by height. -/
def sortDesc : List String → List String
  | [] => []
  | x :: xs => insertDesc x (sortDesc xs)

/-- `DownloadManager._get_best_resolution`, taking the resolution tokens
already parsed by `re.findall(r'(\d+x\d+)/video\.drm', body)`: raise
`"No resolutions found"` when the token list is empty, else the head of the
descending-by-height sort. -/
def get_best_resolution (resolutions : List String) : Except String String :=
  if resolutions.isEmpty then .error "No resolutions found"
  else .ok ((sortDesc resolutions).headD "")

/-! ### Google Docs export — `get_google_docs_export_link` / `download_google_docs`

The doc-type is the first regex capture, one of `document`, `spreadsheets`,
`presentation`; the compatibility table and both URL branches are from the
source.  The URL-capture step itself is carried as an `Option` input of the
download wrapper (a `None` capture raises before any network request). -/

/-- The three doc types capturable by the `googledocs` pattern. -/
inductive DocType where
  | document
  | spreadsheets
  | presentation
deriving DecidableEq, Repr

/-- The captured doc-type string. -/
def docTypeName : DocType → String
  | .document => "document"
  | .spreadsheets => "spreadsheets"
  | .presentation => "presentation"

/-- The fixed compatibility table `export_formats` (keys of the per-type
Python dicts; the dict values are never read by the source). -/
def exportFormats : DocType → List String
  | .document => ["pdf", "docx", "txt", "html"]
  | .spreadsheets => ["pdf", "xlsx", "csv"]
  | .presentation => ["pdf", "pptx"]

/-- `DownloadManager.get_google_docs_export_link` after a successful
capture of `(doc_type, doc_id)`: `None` for an unsupported format, else the
export URL (the `spreadsheets` branch is spelled separately, as in the
source) paired with the doc id. -/
def get_google_docs_export_link (docType : DocType) (docId : String) (fmt : String) :
    Option (String × String) :=
  if fmt ∈ exportFormats docType then
    if docType = .spreadsheets then
      some ("https://docs.google.com/spreadsheets/d/" ++ docId ++ "/export?format=" ++ fmt, docId)
    else
      some ("https://docs.google.com/" ++ docTypeName docType ++ "/d/" ++ docId ++
        "/export?format=" ++ fmt, docId)
  else none

/-- `DownloadManager.download_google_docs` up to its network phase:
`matched` is the regex capture of the URL (`none` when the pattern fails);
a missing capture or an out-of-table format raises `"Invalid Google Docs
URL"` with an empty request trace (second component), else the streamed
download issues its request to the export link. -/
def download_google_docs (matched : Option (DocType × String)) (fmt : String) :
    Except String String × List String :=
  match matched with
  | none => (.error "Invalid Google Docs URL", [])
  | some (dt, docId) =>
    match get_google_docs_export_link dt docId fmt with
    | none => (.error "Invalid Google Docs URL", [])
    | some (link, _) => (.ok link, [link])

/-! ### Dispatcher — `DownloadManager.download_video`

The provider downloaders and `download_with_retry` around them perform
network I/O against external services; the dispatcher is embedded with the
retry-wrapped provider fetch abstracted as `fetch : UrlType → Except String
String` (final filename, or the stringified exception reaching the
dispatcher's `except` block).  The output records the return flag, the
emitted events, the ledger, and which provider fetches were invoked — a
non-attempted URL must leave the last two untouched/empty.  Progress and
completion events emitted inside the downloaders are theirs, not the
dispatcher's, and are not modelled. -/

/-- A progress event (`emit_progress` / `emit_complete` / `emit_error`). -/
inductive ProgEvent where
  | progress (file : String) (percent : Nat)
  | complete (file : String) (path : String)
  | error (file : String) (message : String)
deriving DecidableEq, Repr

/-- `os.path.join`, modelled with a `/` separator. -/
def joinPath (dir file : String) : String := dir ++ "/" ++ file

/-- Dispatcher outcome: return flag, dispatcher-emitted events, ledger
after the call, provider fetches performed. -/
structure DispatchOut where
  ok : Bool
  events : List ProgEvent
  history : History
  fetches : List UrlType
deriving DecidableEq, Repr

/-- `DownloadManager.download_video`: classify, reject
invalid-but-recognized URLs, skip already-completed URLs, route the rest to
the retry-wrapped provider downloader (`fetch`), and update the ledger on
the attempted paths. -/
def download_video (fetch : UrlType → Except String String) (skipExisting : Bool)
    (h : History) (now url destFolder : String) : DispatchOut :=
  let td := detect_url_type url
  if !td.2 && td.1 ≠ .unknown then
    { ok := false, events := [.error url ("Invalid " ++ urlTypeName td.1 ++ " URL")],
      history := h, fetches := [] }
  else if is_downloaded skipExisting h url then
    let fn := match lookupH h url with
      | some r => r.filename
      | none => "Unknown"
    { ok := true, events := [.complete fn (joinPath destFolder fn)], history := h, fetches := [] }
  else
    match td.1 with
    | .googledrive_folder =>
      { ok := false, events := [.error url "Google Drive folders not supported"],
        history := h, fetches := [] }
    | .unknown =>
      { ok := false, events := [.error url "Unsupported URL type"],
        history := h, fetches := [] }
    | ty =>
      match fetch ty with
      | .ok filename =>
        { ok := true, events := [],
          history := mark_downloaded h url filename "completed" (some destFolder) now,
          fetches := [ty] }
      | .error e =>
        { ok := false, events := [.error url e],
          history := mark_downloaded h url e "failed" (some destFolder) now,
          fetches := [ty] }

/-! ### Exit status — `main` -/

/-- The tail of `main`: exit 1 when no URLs were obtained, else run each URL
through `download_video` and exit 0 exactly when no URL failed. -/
def mainExit (urls : List String) (run : String → Bool) : Nat :=
  if urls.isEmpty then 1
  else if (urls.map run).count false == 0 then 0 else 1

/-! ## Theorems settling the claims -/

/-! ### Ledger lemmas -/

lemma lookupH_upsertH_self (h : History) (url : String) (r : HistoryRecord) :
    lookupH (upsertH h url r) url = some r := by
  induction h with
  | nil => simp [upsertH, lookupH]
  | cons e rest ih =>
    obtain ⟨k, v⟩ := e
    by_cases hk : k = url
    · simp [upsertH, hk, lookupH]
    · simp [upsertH, hk, lookupH, ih]

lemma lookupH_upsertH_other (h : History) (url u : String) (r : HistoryRecord)
    (hne : u ≠ url) : lookupH (upsertH h url r) u = lookupH h u := by
  induction h with
  | nil => simp [upsertH, lookupH, Ne.symm hne]
  | cons e rest ih =>
    obtain ⟨k, v⟩ := e
    by_cases hk : k = url
    · subst hk
      simp [upsertH, lookupH, Ne.symm hne]
    · simp [upsertH, hk, lookupH, ih]

lemma countKey_eq_zero_of_not_mem (h : History) (url : String) (hnk : url ∉ keysH h) :
    countKey url h = 0 := by
  induction h with
  | nil => rfl
  | cons e rest ih =>
    simp only [keysH, List.map_cons, List.mem_cons, not_or] at hnk
    simp only [countKey, List.filter_cons]
    have : (e.1 == url) = false := by
      simp only [beq_eq_false_iff_ne]
      exact fun hh => hnk.1 (Eq.symm hh)
    rw [this]
    simp only [if_neg Bool.false_ne_true]
    exact ih (by simpa [keysH] using hnk.2)

lemma countKey_upsertH (h : History) (url : String) (r : HistoryRecord)
    (hnd : (keysH h).Nodup) : countKey url (upsertH h url r) = 1 := by
  induction h with
  | nil => simp [upsertH, countKey, List.filter_cons]
  | cons e rest ih =>
    obtain ⟨k, v⟩ := e
    simp only [keysH, List.map_cons, List.nodup_cons] at hnd
    by_cases hk : k = url
    · subst hk
      simp only [upsertH, if_pos rfl, countKey, List.filter_cons, beq_self_eq_true, if_pos rfl,
        List.length_cons]
      have : countKey k rest = 0 := countKey_eq_zero_of_not_mem rest k (by simpa [keysH] using hnd.1)
      simpa [countKey] using this
    · simp only [upsertH, if_neg hk, countKey, List.filter_cons]
      have : ((k, v).1 == url) = false := by simpa [beq_eq_false_iff_ne] using hk
      rw [this]
      simp only [if_neg Bool.false_ne_true]
      exact ih hnd.2

lemma keysH_upsertH (h : History) (url : String) (r : HistoryRecord) :
    keysH (upsertH h url r) =
      if url ∈ keysH h then keysH h else keysH h ++ [url] := by
  induction h with
  | nil => simp [upsertH, keysH]
  | cons e rest ih =>
    obtain ⟨k, v⟩ := e
    by_cases hk : k = url
    · subst hk
      simp [upsertH, keysH, List.mem_cons]
    · simp only [upsertH, if_neg hk, keysH, List.map_cons, List.mem_cons]
      have hkne : ¬url = k := fun hh => hk hh.symm
      by_cases hm : url ∈ keysH rest
      · simp only [keysH] at hm ih
        simp [hm, hkne, ih]
      · simp only [keysH] at hm ih
        simp [hm, hkne, ih]

lemma nodup_keysH_upsertH (h : History) (url : String) (r : HistoryRecord)
    (hnd : (keysH h).Nodup) : (keysH (upsertH h url r)).Nodup := by
  rw [keysH_upsertH]
  by_cases hm : url ∈ keysH h
  · simpa [hm] using hnd
  · simp only [if_neg hm]
    simp [List.nodup_append, hnd, hm]

/-- Claim C6: the history ledger is an upsert keyed by URL — after any two
`mark_downloaded` calls for the same URL the ledger holds exactly one record
for it, equal to the most recent call, and other URLs are untouched;
`is_downloaded` is true immediately after a `completed` mark with
skip-existing enabled, false immediately after a `failed` mark, and false
whenever skip-existing is disabled, regardless of the ledger contents. -/
theorem ledger_spec (h : History) (url f1 f2 s1 s2 now1 now2 fn e ts : String)
    (fo1 fo2 fo : Option String) (cfg : Bool) (hnd : (keysH h).Nodup) :
    (countKey url (mark_downloaded (mark_downloaded h url f1 s1 fo1 now1) url f2 s2 fo2 now2) = 1) ∧
    (lookupH (mark_downloaded (mark_downloaded h url f1 s1 fo1 now1) url f2 s2 fo2 now2) url =
      some ⟨f2, s2, now2, fo2⟩) ∧
    (∀ u, u ≠ url →
      lookupH (mark_downloaded (mark_downloaded h url f1 s1 fo1 now1) url f2 s2 fo2 now2) u =
        lookupH h u) ∧
    (is_downloaded true (mark_downloaded h url fn "completed" fo ts) url = true) ∧
    (is_downloaded cfg (mark_downloaded h url e "failed" fo ts) url = false) ∧
    (∀ h2 u, is_downloaded false h2 u = false) := by
  refine ⟨?_, ?_, ?_, ?_, ?_, ?_⟩
  · exact countKey_upsertH _ url _ (nodup_keysH_upsertH h url _ hnd)
  · exact lookupH_upsertH_self _ url _
  · intro u hu
    rw [mark_downloaded, mark_downloaded, lookupH_upsertH_other _ url u _ hu,
      lookupH_upsertH_other _ url u _ hu]
  · simp [is_downloaded, mark_downloaded, lookupH_upsertH_self]
  · simp [is_downloaded, mark_downloaded, lookupH_upsertH_self]
  · intro h2 u
    simp [is_downloaded]

/-- Witness for `ledger_spec` at concrete inputs. -/
theorem ledger_spec_witness :
    countKey "u" (mark_downloaded (mark_downloaded [] "u" "a.mp4" "completed" none "t1")
      "u" "boom" "failed" none "t2") = 1 :=
  (ledger_spec [] "u" "a.mp4" "boom" "completed" "failed" "t1" "t2" "x" "y" "t3"
    none none none true (by simp [keysH])).1

/-- Claim C3: the DRM authentication handshake issues exactly two requests
against `video-<serverID>.mediadelivery.net/.drm/<contextID>/`: first the
`ping` request, whose query parameters include the MD5 hex digest of the
underscore-joined string `secret_contextID_time_paused_chosenRes` with the
initial values `time = 0`, `paused = "true"`, `res = "0"`, then the
`activate` request; and for every `(secret, contextID, time, paused, res)`
the `hash` parameter of the ping equals
`md5Hex (secret ++ "_" ++ contextID ++ "_" ++ time ++ "_" ++ paused ++ "_" ++ res)`. -/
theorem drm_auth_two_calls (server_id context_id secret : String) :
    drm_auth server_id context_id secret =
      [drmPingRequest server_id context_id secret 0 "true" "0",
       drmActivateRequest server_id context_id] ∧
    (drm_auth server_id context_id secret).length = 2 ∧
    (drmPingRequest server_id context_id secret 0 "true" "0").url =
      "https://video-" ++ server_id ++ ".mediadelivery.net/.drm/" ++ context_id ++ "/ping" ∧
    (drmActivateRequest server_id context_id).url =
      "https://video-" ++ server_id ++ ".mediadelivery.net/.drm/" ++ context_id ++ "/activate" ∧
    (∀ timeVal paused res,
      ("hash", md5Hex (secret ++ "_" ++ context_id ++ "_" ++ toString timeVal ++ "_" ++
          paused ++ "_" ++ res)) ∈
        (drmPingRequest server_id context_id secret timeVal paused res).params) := by
  refine ⟨rfl, rfl, rfl, rfl, fun timeVal paused res => ?_⟩
  simp [drmPingRequest]

/-- Claim C7: an export URL is produced iff the (doc-type, format) pair is
in the fixed compatibility table; an out-of-table pair is rejected before
any network request (empty request trace); an in-table pair with doc id `D`
and format `F` yields `https://docs.google.com/<doc-type>/d/D/export?format=F`. -/
theorem google_docs_export_spec (dt : DocType) (docId fmt : String) :
    ((get_google_docs_export_link dt docId fmt).isSome ↔ fmt ∈ exportFormats dt) ∧
    (∀ link d, get_google_docs_export_link dt docId fmt = some (link, d) →
      link = "https://docs.google.com/" ++ docTypeName dt ++ "/d/" ++ docId ++
        "/export?format=" ++ fmt ∧ d = docId) ∧
    (fmt ∉ exportFormats dt →
      download_google_docs (some (dt, docId)) fmt = (.error "Invalid Google Docs URL", [])) := by
  have hlink : get_google_docs_export_link dt docId fmt =
      if fmt ∈ exportFormats dt then
        some ("https://docs.google.com/" ++ docTypeName dt ++ "/d/" ++ docId ++
          "/export?format=" ++ fmt, docId)
      else none := by
    cases dt with
    | document => by_cases hf : fmt ∈ exportFormats DocType.document <;>
        simp [get_google_docs_export_link, docTypeName, hf]
    | presentation => by_cases hf : fmt ∈ exportFormats DocType.presentation <;>
        simp [get_google_docs_export_link, docTypeName, hf]
    | spreadsheets =>
      by_cases hf : fmt ∈ exportFormats DocType.spreadsheets <;>
        simp only [get_google_docs_export_link, docTypeName, hf, if_pos, if_neg,
          if_true, if_false, reduceIte]
      rw [show ("https://docs.google.com/" ++ "spreadsheets" ++ "/d/" : String) =
        "https://docs.google.com/spreadsheets/d/" from rfl]
  refine ⟨?_, ?_, ?_⟩
  · rw [hlink]
    by_cases hf : fmt ∈ exportFormats dt <;> simp [hf]
  · intro link d hl
    rw [hlink] at hl
    by_cases hf : fmt ∈ exportFormats dt
    · rw [if_pos hf] at hl
      have hp := Option.some.inj hl
      exact ⟨(congrArg Prod.fst hp).symm, (congrArg Prod.snd hp).symm⟩
    · rw [if_neg hf] at hl
      exact absurd hl (by simp)
  · intro hf
    simp [download_google_docs, hlink, hf]

/-- Witness for `google_docs_export_spec` at the spec's example: a
`document` with format `docx` exports, and `csv` against a document is
rejected with no request issued. -/
theorem google_docs_export_spec_witness :
    get_google_docs_export_link DocType.document "XYZ" "docx" =
      some ("https://docs.google.com/document/d/XYZ/export?format=docx", "XYZ") ∧
    download_google_docs (some (DocType.document, "XYZ")) "csv" =
      (.error "Invalid Google Docs URL", []) :=
  ⟨rfl, (google_docs_export_spec DocType.document "XYZ" "csv").2.2 (by decide)⟩

/-- Claim C8: the process exit status is 0 iff at least one URL was
obtained and every dispatched URL ended in success; it is 1 when any URL
failed and 1 when zero URLs were obtained. -/
theorem main_exit_spec (urls : List String) (run : String → Bool) :
    (mainExit urls run = 0 ↔ urls ≠ [] ∧ ∀ u ∈ urls, run u = true) ∧
    (mainExit urls run = 0 ∨ mainExit urls run = 1) := by
  constructor
  · unfold mainExit
    by_cases he : urls.isEmpty
    · have : urls = [] := List.isEmpty_iff.mp he
      simp [he, this]
    · have hne : urls ≠ [] := fun hh => he (by simp [hh])
      rw [if_neg (by simpa using he)]
      by_cases hc : (urls.map run).count false = 0
      · rw [if_pos (by simpa using hc)]
        constructor
        · intro _
          refine ⟨hne, fun u hu => ?_⟩
          rw [List.count_eq_zero] at hc
          have : run u ≠ false := fun hf => hc (List.mem_map.mpr ⟨u, hu, hf⟩)
          exact eq_true_of_ne_false this
        · intro _; rfl
      · rw [if_neg (by simpa using hc)]
        constructor
        · intro hh; exact absurd hh (by decide)
        · rintro ⟨_, hall⟩
          exfalso
          apply hc
          rw [List.count_eq_zero]
          intro hmem
          obtain ⟨u, hu, hru⟩ := List.mem_map.mp hmem
          rw [hall u hu] at hru
          simp at hru
  · unfold mainExit
    by_cases he : urls.isEmpty
    · right; simp [he]
    · by_cases hc : (urls.map run).count false = 0
      · left; simp [he, hc]
      · right; simp [he, hc]

/-- Witness for `main_exit_spec`: an all-successful batch exits 0 and an
empty URL list exits 1. -/
theorem main_exit_spec_witness :
    mainExit ["a", "b"] (fun _ => true) = 0 ∧ mainExit [] (fun _ => true) = 1 :=
  ⟨(main_exit_spec ["a", "b"] (fun _ => true)).1.mpr ⟨by decide, by decide⟩, rfl⟩

/-- Claim C10: with a configured attempt count of 0 (or negative) the retry
wrapper never invokes the wrapped operation (empty call list), performs no
sleep, and ends in the `raise None` TypeError rather than returning a value
or an operation error. -/
theorem retry_zero_attempts {ε α : Type} (op : Nat → Except ε α) (ra delay : Int)
    (hra : ra ≤ 0) :
    download_with_retry op ra delay = (.typeError, [], []) := by
  unfold download_with_retry
  rw [Int.toNat_of_nonpos hra]
  rfl

/-- Witness for `retry_zero_attempts` at zero configured attempts. -/
theorem retry_zero_attempts_witness :
    download_with_retry (fun j => (Except.error j : Except Nat Nat)) 0 5 =
      (.typeError, [], []) :=
  retry_zero_attempts (fun j => (Except.error j : Except Nat Nat)) 0 5 (by decide)

/-! ### Resolution-selection lemmas (C4) -/

/-- Descending-by-height sortedness. -/
abbrev SortedDescH (l : List String) : Prop :=
  List.Pairwise (fun a b => heightOf b ≤ heightOf a) l

lemma mem_insertDesc {x y : String} {l : List String} :
    y ∈ insertDesc x l ↔ y = x ∨ y ∈ l := by
  induction l with
  | nil => simp [insertDesc]
  | cons z zs ih =>
    by_cases hz : heightOf z ≤ heightOf x
    · simp [insertDesc, hz]
    · simp only [insertDesc, if_neg hz, List.mem_cons, ih]
      tauto

lemma sortedDescH_insertDesc (x : String) :
    ∀ l : List String, SortedDescH l → SortedDescH (insertDesc x l) := by
  intro l
  induction l with
  | nil => intro _; simp [insertDesc]
  | cons z zs ih =>
    intro hs
    obtain ⟨hz, hzs⟩ := List.pairwise_cons.mp hs
    by_cases hcmp : heightOf z ≤ heightOf x
    · simp only [insertDesc, if_pos hcmp]
      refine List.Pairwise.cons ?_ hs
      intro b hb
      rcases List.mem_cons.mp hb with hb | hb
      · exact hb ▸ hcmp
      · exact le_trans (hz b hb) hcmp
    · simp only [insertDesc, if_neg hcmp]
      refine List.Pairwise.cons ?_ (ih hzs)
      intro b hb
      rcases mem_insertDesc.mp hb with hb | hb
      · exact hb ▸ le_of_lt (lt_of_not_le hcmp)
      · exact hz b hb

lemma sortedDescH_sortDesc (l : List String) : SortedDescH (sortDesc l) := by
  induction l with
  | nil => simp [sortDesc, SortedDescH]
  | cons x xs ih => exact sortedDescH_insertDesc x (sortDesc xs) ih

lemma mem_sortDesc {y : String} {l : List String} : y ∈ sortDesc l ↔ y ∈ l := by
  induction l with
  | nil => simp [sortDesc]
  | cons x xs ih => simp [sortDesc, mem_insertDesc, ih]

lemma insertDesc_ne_nil (x : String) (l : List String) : insertDesc x l ≠ [] := by
  cases l with
  | nil => simp [insertDesc]
  | cons z zs =>
    by_cases hz : heightOf z ≤ heightOf x <;> simp [insertDesc, hz]

lemma sortDesc_ne_nil {l : List String} (h : l ≠ []) : sortDesc l ≠ [] := by
  cases l with
  | nil => exact absurd rfl h
  | cons x xs => exact insertDesc_ne_nil x (sortDesc xs)

lemma headD_max_of_sortedDescH (l : List String) (hs : SortedDescH l) :
    ∀ x ∈ l, heightOf x ≤ heightOf (l.headD "") := by
  cases l with
  | nil => intro x hx; exact absurd hx (List.not_mem_nil x)
  | cons a t =>
    intro x hx
    rcases List.mem_cons.mp hx with hx | hx
    · exact hx ▸ le_refl _
    · exact (List.pairwise_cons.mp hs).1 x hx

/-- Claim C4: for a non-empty resolution-token list the selected resolution
is an element of numerically largest height (the head of the stable
descending sort by `int(token.split('x')[1])`); for an empty token list the
operation raises the protocol-extraction failure `"No resolutions found"`. -/
theorem best_resolution_spec (l : List String) :
    (l = [] → get_best_resolution l = .error "No resolutions found") ∧
    (l ≠ [] → ∃ r, get_best_resolution l = .ok r ∧ r ∈ l ∧
      ∀ x ∈ l, heightOf x ≤ heightOf r) := by
  constructor
  · intro h
    subst h
    rfl
  · intro h
    refine ⟨(sortDesc l).headD "", ?_, ?_, ?_⟩
    · unfold get_best_resolution
      rw [if_neg (by simpa [List.isEmpty_iff] using h)]
    · have hne := sortDesc_ne_nil h
      cases hsd : sortDesc l with
      | nil => exact absurd hsd hne
      | cons a t =>
        have : a ∈ sortDesc l := by rw [hsd]; exact List.mem_cons_self a t
        have := mem_sortDesc.mp this
        simpa [hsd] using this
    · intro x hx
      exact headD_max_of_sortedDescH (sortDesc l) (sortedDescH_sortDesc l) x
        (mem_sortDesc.mpr hx)

/-- Witness for `best_resolution_spec`: the spec's example token set selects
`1280x720`, and the empty set errors. -/
theorem best_resolution_spec_witness :
    get_best_resolution ([] : List String) = .error "No resolutions found" ∧
    (∃ r, get_best_resolution ["640x360", "1280x720", "854x480"] = .ok r ∧
      r ∈ ["640x360", "1280x720", "854x480"] ∧
      ∀ x ∈ ["640x360", "1280x720", "854x480"], heightOf x ≤ heightOf r) ∧
    get_best_resolution ["640x360", "1280x720", "854x480"] = .ok "1280x720" :=
  ⟨(best_resolution_spec []).1 rfl,
   (best_resolution_spec ["640x360", "1280x720", "854x480"]).2 (by decide),
   rfl⟩

/-! ### Retry-executor lemmas (C2) -/

instance {ε α : Type} [DecidableEq ε] [DecidableEq α] : DecidableEq (Except ε α) := fun x y =>
  match x, y with
  | .ok a, .ok b =>
    if h : a = b then .isTrue (h ▸ rfl) else .isFalse (fun hh => h (Except.ok.inj hh))
  | .error a, .error b =>
    if h : a = b then .isTrue (h ▸ rfl) else .isFalse (fun hh => h (Except.error.inj hh))
  | .ok _, .error _ => .isFalse (fun hh => Except.noConfusion hh)
  | .error _, .ok _ => .isFalse (fun hh => Except.noConfusion hh)

lemma retryRun_fst_error {ε α : Type} (op : Nat → Except ε α) (ra delay : Int)
    (a : Nat) (rest : List Nat) (last : Option ε) (e : ε) (h : op a = .error e) :
    (retryRun op ra delay (a :: rest) last).1 = (retryRun op ra delay rest (some e)).1 := by
  simp only [retryRun, h]

lemma retryRun_success {ε α : Type} (op : Nat → Except ε α) (ra delay : Int)
    (err : Nat → ε) (v : α) :
    ∀ (t s m : Nat) (last : Option ε), t < m →
      (∀ j, j < t → op (s + j) = .error (err (s + j))) →
      op (s + t) = .ok v →
      (∀ j, j < t → ((s + j : Nat) : Int) < ra - 1) →
      retryRun op ra delay (List.range' s m) last =
        (.success v, (List.range' s t).map (fun a => delay * ((a : Int) + 1)),
         List.range' s (t + 1)) := by
  intro t
  induction t with
  | zero =>
    intro s m last hm hfail hok hsl
    cases m with
    | zero => omega
    | succ m2 =>
      rw [List.range'_succ s m2 1]
      have hok0 : op s = .ok v := by simpa using hok
      simp [retryRun, hok0, List.range']
  | succ t2 ih =>
    intro s m last hm hfail hok hsl
    cases m with
    | zero => omega
    | succ m2 =>
      rw [List.range'_succ s m2 1]
      have hf0 : op s = .error (err s) := by simpa using hfail 0 (by omega)
      have hrec := ih (s + 1) m2 (some (err s)) (by omega)
        (fun j hj => by
          rw [show s + 1 + j = s + (j + 1) from by omega]
          exact hfail (j + 1) (by omega))
        (by
          rw [show s + 1 + t2 = s + (t2 + 1) from by omega]
          exact hok)
        (fun j hj => by
          rw [show s + 1 + j = s + (j + 1) from by omega]
          exact hsl (j + 1) (by omega))
      have hc : ((s : Nat) : Int) < ra - 1 := by simpa using hsl 0 (by omega)
      simp only [retryRun, hf0, hrec, if_pos hc]
      rw [List.range'_succ s t2 1, List.range'_succ s (t2 + 1) 1]
      simp

lemma retryRun_allfail {ε α : Type} (op : Nat → Except ε α) (ra delay : Int)
    (err : Nat → ε) :
    ∀ (m s : Nat) (last : Option ε), 1 ≤ m →
      (∀ j, j < m → op (s + j) = .error (err (s + j))) →
      (retryRun op ra delay (List.range' s m) last :
          RetryResult ε α × List Int × List Nat).1 =
        .raised (err (s + m - 1)) := by
  intro m
  induction m with
  | zero => intro s last h1 _; omega
  | succ m2 ih =>
    intro s last h1 hfail
    rw [List.range'_succ s m2 1]
    have hf0 : op s = .error (err s) := by simpa using hfail 0 (by omega)
    cases m2 with
    | zero => simp [retryRun, hf0, List.range']
    | succ m3 =>
      have hrec := ih (s + 1) (some (err s)) (by omega)
        (fun j hj => by
          rw [show s + 1 + j = s + (j + 1) from by omega]
          exact hfail (j + 1) (by omega))
      rw [show s + 1 + (m3 + 1) - 1 = s + (m3 + 1 + 1) - 1 from by omega] at hrec
      rw [retryRun_fst_error op ra delay s (List.range' (s + 1) (m3 + 1)) last (err s) hf0,
        hrec]

/-- Claim C2: with a configured attempt count `ra ≥ 1`, if the operation
fails exactly `k < ra` times and then succeeds, the retry wrapper returns
the success value having invoked the operation `k + 1` times and slept
exactly `k` times, the `j`-th (1-indexed) sleep lasting `delay × j`; if the
operation fails on all `ra` attempts, the wrapper re-raises the last
error unchanged. -/
theorem download_with_retry_spec {ε α : Type} (op : Nat → Except ε α) (err : Nat → ε)
    (v : α) (ra delay : Int) (k : Nat) (hra : 1 ≤ ra) :
    ((k : Int) < ra →
      (∀ j, j < k → op j = .error (err j)) →
      op k = .ok v →
      download_with_retry op ra delay =
        (.success v, (List.range k).map (fun j => delay * ((j : Int) + 1)),
         List.range (k + 1))) ∧
    ((∀ j, j < ra.toNat → op j = .error (err j)) →
      (download_with_retry op ra delay).1 = .raised (err (ra.toNat - 1))) := by
  constructor
  · intro hk hfail hok
    unfold download_with_retry
    rw [List.range_eq_range' ra.toNat]
    have hkm : k < ra.toNat := Int.lt_toNat.mpr hk
    rw [retryRun_success op ra delay err v k 0 ra.toNat none hkm
      (fun j hj => by simpa using hfail j hj)
      (by simpa using hok)
      (fun j hj => by
        have hjk : (j : Int) < (k : Int) := by exact_mod_cast hj
        omega)]
    rw [← List.range_eq_range' k, ← List.range_eq_range' (k + 1)]
  · intro hfail
    unfold download_with_retry
    rw [List.range_eq_range' ra.toNat]
    have h1 : 0 < ra.toNat := Int.lt_toNat.mpr (by omega)
    have := retryRun_allfail op ra delay err ra.toNat 0 none (by omega)
      (fun j hj => by simpa using hfail j hj)
    simpa using this

/-- Helper operation for the retry witness: fails on attempts 0 and 1,
succeeds on attempt 2. -/
def retryWitnessOp : Nat → Except Nat Nat := fun j => if j = 2 then .ok 42 else .error j

/-- Witness for `download_with_retry_spec`: two failures then success under
three configured attempts returns the success value with sleeps `[5, 10]`. -/
theorem download_with_retry_spec_witness :
    download_with_retry retryWitnessOp 3 5 = (.success 42, [5, 10], [0, 1, 2]) := by
  have h := (download_with_retry_spec retryWitnessOp (fun j => j) 42 3 5 2 (by decide)).1
    (by decide) (by decide) (by decide)
  rw [h]
  decide

/-! ### Trailing-parenthesis stripping (C5) -/

lemma head_dropWhile_false (p : Char → Bool) :
    ∀ (l : List Char) (c : Char), (l.dropWhile p).head? = some c → p c = false := by
  intro l
  induction l with
  | nil => intro c hc; simp [List.dropWhile] at hc
  | cons a rest ih =>
    intro c hc
    by_cases hp : p a
    · rw [List.dropWhile_cons_of_pos hp] at hc
      exact ih c hc
    · rw [List.dropWhile_cons_of_neg hp] at hc
      have : a = c := by simpa using hc
      subst this
      simpa using hp

lemma dropTrailing_decomp (p : Char → Bool) (l : List Char) :
    l = dropTrailing p l ++ (l.reverse.takeWhile p).reverse ∧
    (∀ c ∈ (l.reverse.takeWhile p).reverse, p c = true) ∧
    (∀ c, (dropTrailing p l).getLast? = some c → p c = false) := by
  refine ⟨?_, ?_, ?_⟩
  · calc l = l.reverse.reverse := (List.reverse_reverse l).symm
      _ = (l.reverse.takeWhile p ++ l.reverse.dropWhile p).reverse := by
          rw [@List.takeWhile_append_dropWhile _ p l.reverse]
      _ = (l.reverse.dropWhile p).reverse ++ (l.reverse.takeWhile p).reverse := by
          rw [List.reverse_append]
      _ = dropTrailing p l ++ (l.reverse.takeWhile p).reverse := rfl
  · intro c hc
    rw [List.mem_reverse] at hc
    exact List.mem_takeWhile_imp hc
  · intro c hc
    rw [dropTrailing, List.getLast?_reverse] at hc
    exact head_dropWhile_false p l.reverse c hc

lemma rstripParen_decomp (l : List Char) :
    ∃ k, l = rstripParen l ++ List.replicate k ')' ∧
      ∀ c, (rstripParen l).getLast? = some c → c ≠ ')' := by
  obtain ⟨hdec, hall, hlast⟩ := dropTrailing_decomp (fun c => c == ')') l
  refine ⟨(l.reverse.takeWhile (fun c => c == ')')).reverse.length, ?_, ?_⟩
  · have hrep : (l.reverse.takeWhile (fun c => c == ')')).reverse =
        List.replicate (l.reverse.takeWhile (fun c => c == ')')).reverse.length ')' :=
      List.eq_replicate_of_mem (fun b hb => by simpa using hall b hb)
    rw [← hrep]
    exact hdec
  · intro c hc
    have := hlast c hc
    simpa using this

/-- Claim C5 counterexample: a captured token ending in two `)` with more
close- than open-parens loses BOTH trailing parentheses (`rstrip(')')`
strips the whole trailing run), not just the last one as claimed. -/
theorem extract_parens_counterexample :
    extract_urls_from_text "https://x.com/a))" = ["https://x.com/a"] ∧
    ["https://x.com/a"] ≠ ["https://x.com/a)"] := by
  exact ⟨rfl, by decide⟩

/-- Claim C5 (amended): for every captured token in which, after
trailing-punctuation stripping, the `)` count exceeds the `(` count, the
whole maximal trailing run of `)` characters is removed — the cleaned token
no longer ends in `)` and the stripped text is the cleaned token followed by
some run of `)`. -/
theorem cleanup_excess_parens (u : List Char)
    (h : countChar '(' (stripPunct u) < countChar ')' (stripPunct u)) :
    cleanupToken u = rstripParen (stripPunct u) ∧
    ∃ k, stripPunct u = cleanupToken u ++ List.replicate k ')' ∧
      ∀ c, (cleanupToken u).getLast? = some c → c ≠ ')' := by
  have he : cleanupToken u = rstripParen (stripPunct u) := by
    simp [cleanupToken, h]
  exact ⟨he, he ▸ rstripParen_decomp (stripPunct u)⟩

/-- Witness for `cleanup_excess_parens` on the token captured from
`https://x.com/a))`. -/
theorem cleanup_excess_parens_witness :
    cleanupToken "https://x.com/a))".toList = rstripParen (stripPunct "https://x.com/a))".toList) ∧
    ∃ k, stripPunct "https://x.com/a))".toList =
        cleanupToken "https://x.com/a))".toList ++ List.replicate k ')' ∧
      ∀ c, (cleanupToken "https://x.com/a))".toList).getLast? = some c → c ≠ ')' :=
  cleanup_excess_parens "https://x.com/a))".toList (by decide)

/-! ### Deduplication lemmas (C9) -/

lemma dedupGo_sublist (l : List String) : ∀ seen, List.Sublist (dedupGo seen l) l := by
  induction l with
  | nil => intro seen; simp [dedupGo]
  | cons x xs ih =>
    intro seen
    by_cases hx : x ∈ seen
    · simp only [dedupGo, if_pos hx]
      exact (ih seen).cons x
    · simp only [dedupGo, if_neg hx]
      exact (ih (x :: seen)).cons₂ x

lemma dedupGo_not_mem_seen (l : List String) :
    ∀ seen y, y ∈ dedupGo seen l → y ∉ seen := by
  induction l with
  | nil => intro seen y hy; simp [dedupGo] at hy
  | cons x xs ih =>
    intro seen y hy
    by_cases hx : x ∈ seen
    · rw [dedupGo, if_pos hx] at hy
      exact ih seen y hy
    · rw [dedupGo, if_neg hx] at hy
      rcases List.mem_cons.mp hy with hy | hy
      · exact hy ▸ hx
      · have := ih (x :: seen) y hy
        exact fun hmem => this (List.mem_cons_of_mem x hmem)

lemma dedupGo_nodup (l : List String) : ∀ seen, (dedupGo seen l).Nodup := by
  induction l with
  | nil => intro seen; simp [dedupGo]
  | cons x xs ih =>
    intro seen
    by_cases hx : x ∈ seen
    · rw [dedupGo, if_pos hx]
      exact ih seen
    · rw [dedupGo, if_neg hx]
      refine List.nodup_cons.mpr ⟨?_, ih (x :: seen)⟩
      intro hmem
      exact dedupGo_not_mem_seen xs (x :: seen) x hmem (List.mem_cons_self x seen)

lemma dedupFirstSpecGo_nil (f : Nat) : dedupFirstSpecGo f [] = [] := by
  cases f <;> rfl

lemma dedupFirstSpecGo_fuel :
    ∀ (f g : Nat) (l : List String), l.length ≤ f → l.length ≤ g →
      dedupFirstSpecGo f l = dedupFirstSpecGo g l := by
  intro f
  induction f with
  | zero =>
    intro g l hf _
    have : l = [] := List.length_eq_zero.mp (Nat.le_zero.mp hf)
    subst this
    rw [dedupFirstSpecGo_nil, dedupFirstSpecGo_nil]
  | succ f2 ih =>
    intro g l hf hg
    cases l with
    | nil => rw [dedupFirstSpecGo_nil, dedupFirstSpecGo_nil]
    | cons x xs =>
      cases g with
      | zero => simp at hg
      | succ g2 =>
        simp only [dedupFirstSpecGo]
        congr 1
        exact ih g2 (xs.filter (fun y => decide (y ≠ x)))
          (le_trans (List.length_filter_le _ xs) (by simpa using hf))
          (le_trans (List.length_filter_le _ xs) (by simpa using hg))

lemma dedupFirstSpec_cons (x : String) (xs : List String) :
    dedupFirstSpec (x :: xs) =
      x :: dedupFirstSpec (xs.filter (fun y => decide (y ≠ x))) := by
  unfold dedupFirstSpec
  simp only [List.length_cons, dedupFirstSpecGo]
  congr 1
  exact dedupFirstSpecGo_fuel xs.length (xs.filter (fun y => decide (y ≠ x))).length
    (xs.filter (fun y => decide (y ≠ x))) (List.length_filter_le _ xs) le_rfl

lemma dedupGo_eq_spec (l : List String) :
    ∀ seen, dedupGo seen l = dedupFirstSpec (l.filter (fun y => decide (y ∉ seen))) := by
  induction l with
  | nil => intro seen; rfl
  | cons x xs ih =>
    intro seen
    by_cases hx : x ∈ seen
    · rw [dedupGo, if_pos hx, List.filter_cons]
      rw [if_neg (by simpa using hx)]
      exact ih seen
    · rw [dedupGo, if_neg hx, List.filter_cons]
      rw [if_pos (by simpa using hx)]
      rw [ih (x :: seen), dedupFirstSpec_cons, List.filter_filter]
      congr 1
      congr 1
      apply List.filter_congr
      intro a ha
      by_cases hax : a = x
      · simp [hax, List.mem_cons]
      · by_cases has : a ∈ seen <;> simp [hax, has, List.mem_cons]

/-- Claim C9: URL extraction is deterministic on the same text, its output
has no duplicate strings, it is an order-preserving subsequence of the
cleaned-token sequence, and it equals the specification-side
keep-first-occurrence deduplication of that sequence (each distinct URL at
the position of its first occurrence). -/
theorem extract_urls_props (t : String) :
    extract_urls_from_text t = extract_urls_from_text t ∧
    (extract_urls_from_text t).Nodup ∧
    List.Sublist (extract_urls_from_text t) (cleanedTokens t) ∧
    extract_urls_from_text t = dedupFirstSpec (cleanedTokens t) := by
  refine ⟨rfl, dedupGo_nodup (cleanedTokens t) [], dedupGo_sublist (cleanedTokens t) [], ?_⟩
  rw [extract_urls_from_text, dedupGo_eq_spec (cleanedTokens t) []]
  congr 1
  have : ∀ l : List String, l.filter (fun y => decide (y ∉ ([] : List String))) = l := by
    intro l
    induction l with
    | nil => rfl
    | cons x xs ih => simp [List.filter_cons, ih]
  exact this (cleanedTokens t)

/-! ### Dispatcher theorems (C1) -/

/-- Claim C1 (amended): every non-attempted URL — recognized-but-invalid
classification, Unknown tag, or the unsupported DriveFolder tag (the latter
two when not skipped via a prior completed record) — makes the dispatcher
emit exactly one Error event and return failure WITHOUT invoking any
provider fetch (hence no network request) and WITHOUT touching the history
ledger: contrary to the original claim, no failed history record is
written on these paths. -/
theorem dispatcher_non_attempted (fetch : UrlType → Except String String)
    (skipEx : Bool) (h : History) (now url dest : String) :
    (∀ ty, detect_url_type url = (ty, false) → ty ≠ .unknown →
      download_video fetch skipEx h now url dest =
        ⟨false, [.error url ("Invalid " ++ urlTypeName ty ++ " URL")], h, []⟩) ∧
    (detect_url_type url = (.unknown, false) → is_downloaded skipEx h url = false →
      download_video fetch skipEx h now url dest =
        ⟨false, [.error url "Unsupported URL type"], h, []⟩) ∧
    (detect_url_type url = (.googledrive_folder, true) →
      is_downloaded skipEx h url = false →
      download_video fetch skipEx h now url dest =
        ⟨false, [.error url "Google Drive folders not supported"], h, []⟩) := by
  refine ⟨?_, ?_, ?_⟩
  · intro ty hdet hne
    unfold download_video
    rw [hdet]
    simp [hne]
  · intro hdet hnd
    unfold download_video
    rw [hdet]
    simp [hnd]
  · intro hdet hnd
    unfold download_video
    rw [hdet]
    simp [hnd]

/-- Counterexample to claim C1 as stated: dispatching the Unknown URL
`xyz` against an empty ledger emits the Error event but leaves the ledger
EMPTY — no failed record for the URL is written. -/
theorem dispatcher_non_attempted_counterexample :
    (download_video (fun _ => .error "network") true [] "2024-01-01T00:00:00"
      "xyz" "Downloads").history = [] ∧
    lookupH (download_video (fun _ => .error "network") true [] "2024-01-01T00:00:00"
      "xyz" "Downloads").history "xyz" = none ∧
    (download_video (fun _ => .error "network") true [] "2024-01-01T00:00:00"
      "xyz" "Downloads").events = [.error "xyz" "Unsupported URL type"] ∧
    (download_video (fun _ => .error "network") true [] "2024-01-01T00:00:00"
      "xyz" "Downloads").fetches = [] :=
  ⟨rfl, rfl, rfl, rfl⟩

/-- Witness for `dispatcher_non_attempted`: a Drive folder URL is refused
with no fetch and an unchanged ledger. -/
theorem dispatcher_non_attempted_witness :
    download_video (fun _ => .error "network") false [] "ts"
      "https://drive.google.com/drive/folders/A1" "dl" =
      ⟨false, [.error "https://drive.google.com/drive/folders/A1"
        "Google Drive folders not supported"], [], []⟩ :=
  (dispatcher_non_attempted (fun _ => .error "network") false [] "ts"
    "https://drive.google.com/drive/folders/A1" "dl").2.2 (by decide) rfl
